import Mathlib

/-!
Verification of the user-registry CLI (src/app/cli.py) over a shallow
embedding.  The store is modelled as the list of User rows in stable
storage order.  The User model and the database layer (app/models.py,
app/database.py) are not among the provided sources; their store-level
behaviour (unique username/email enforced at commit, surrogate id
generated on insert, drop_all wiping every row) is modelled from the
spec where the doc comments say so.  Each command is a function from the
store (plus its CLI arguments) to the store after the command together
with the list of printed outputs, mirroring the body of the
corresponding function in src/app/cli.py.
-/

/-- The sole entity: a registered user row (spec section 3, app/models.py).
Modelled from the spec: surrogate integer id, username, email, password,
all non-null. -/
structure User where
  id : Nat
  username : String
  email : String
  password : String
deriving DecidableEq, Repr

/-- The backing store: the User table's rows in stable storage order. -/
abbrev Store := List User

/-- One printed output event of a command.  Record formatting lives in the
missing models module, so a printed user record is kept symbolically;
each text message of src/app/cli.py becomes one constructor carrying the
data interpolated into it. -/
inductive Printed where
  | userRecord (u : User)
  | databaseInitialized
  | notFoundGet (username : String)
  | noUsersFound
  | notFoundUpdate (username : String)
  | updatedEmail (username email : String)
  | usernameOrEmailTaken
  | created (u : User)
  | notFoundDelete (username : String)
  | deleted (username : String)
  | noMatches (query : String)
  | paginationHeader (limit offset : Nat)
  | noUsersInRange
deriving DecidableEq, Repr

/-- Modelled from the spec: the surrogate integer key is generated by the
store on insert; we take one larger than any id in use, so a fresh table
hands out id 1 first. -/
def nextId (s : Store) : Nat :=
  s.foldr (fun u m => max u.id m) 0 + 1

/-- Modelled from the spec: the store enforces `(username)` unique and
`(email)` unique, so an insert collides exactly when some existing row
already carries the new username or the new email. -/
def insertConflict (s : Store) (username email : String) : Bool :=
  s.any (fun r => r.username == username || r.email == email)

/-- Modelled from the spec: the error the store raises at commit on a
uniqueness violation (sqlalchemy IntegrityError). -/
inductive DBError where
  | integrityError
deriving DecidableEq, Repr

/-- The `initialize` command of src/app/cli.py: drop_all(),
create_db_and_tables(), insert the seed user bob, commit.  drop_all and
create_db_and_tables are modelled from the spec: the wipe deletes every
row and recreation yields an empty table, so the seed row receives the
first generated id. -/
def initDb (_s : Store) : Store × List Printed :=
  let bob : User :=
    { id := nextId [], username := "bob", email := "bob@mail.com", password := "bobpass" }
  ([bob], [Printed.databaseInitialized])

/-- The `get_user` command of src/app/cli.py: first row whose username is
an exact match, or a not-found message. -/
def get_user (s : Store) (username : String) : Store × List Printed :=
  match s.find? (fun u => u.username == username) with
  | none => (s, [Printed.notFoundGet username])
  | some user => (s, [Printed.userRecord user])

/-- The `get_all_users` command of src/app/cli.py. -/
def get_all_users (s : Store) : Store × List Printed :=
  let all_users := s
  if all_users.isEmpty then (s, [Printed.noUsersFound])
  else (s, all_users.map Printed.userRecord)

/-- The `change_email` command of src/app/cli.py: exact-match lookup by
username; on a miss, a not-found message and no mutation; on a hit, the
found row's email is overwritten and committed.  The commit is checked
against the store-level unique-email constraint (modelled from the
spec); `change_email` installs no IntegrityError handler, so a violation
escapes the command as `Except.error`. -/
def change_email (s : Store) (username new_email : String) :
    Except DBError (Store × List Printed) :=
  match s.find? (fun u => u.username == username) with
  | none => Except.ok (s, [Printed.notFoundUpdate username])
  | some user =>
      if s.any (fun r => r.id != user.id && r.email == new_email) then
        Except.error DBError.integrityError
      else
        Except.ok
          (s.map (fun r => if r.id = user.id then { r with email := new_email } else r),
           [Printed.updatedEmail user.username new_email])

/-- The `create_user` command of src/app/cli.py: insert a new row and
commit; on IntegrityError (store-level uniqueness violation, modelled
from the spec) roll back — leaving the rows unchanged — and print the
taken message; otherwise print the created record. -/
def create_user (s : Store) (username email password : String) :
    Store × List Printed :=
  let newuser : User :=
    { id := nextId s, username := username, email := email, password := password }
  if insertConflict s username email then
    (s, [Printed.usernameOrEmailTaken])
  else
    (s ++ [newuser], [Printed.created newuser])

/-- The `delete_user` command of src/app/cli.py: exact-match lookup by
username; on a miss, a not-found message; on a hit, delete exactly the
found row (identified by its primary key) and commit. -/
def delete_user (s : Store) (username : String) : Store × List Printed :=
  match s.find? (fun u => u.username == username) with
  | none => (s, [Printed.notFoundDelete username])
  | some user =>
      (s.eraseP (fun r => r.id == user.id), [Printed.deleted username])

/-- The contains-match used by `search_users` (column.contains(query)):
case-sensitive substring occurrence, per the spec and the source
docstring. -/
def strContains (hay q : String) : Bool :=
  decide (q.toList <:+: hay.toList)

/-- The `search_users` command of src/app/cli.py: all rows where the query
occurs in the username or in the email. -/
def search_users (s : Store) (query : String) : Store × List Printed :=
  let results :=
    s.filter (fun u => strContains u.username query || strContains u.email query)
  if results.isEmpty then (s, [Printed.noMatches query])
  else (s, results.map Printed.userRecord)

/-- The `list_paginated` command of src/app/cli.py for non-negative limit
and offset (negative values are handed to the store and their effect is
store-native per the spec, hence outside this model): skip `offset`
rows, return at most `limit` rows. -/
def list_paginated (s : Store) (limit offset : Nat) : Store × List Printed :=
  let results := (s.drop offset).take limit
  if results.isEmpty then (s, [Printed.noUsersInRange])
  else (s, Printed.paginationHeader limit offset :: results.map Printed.userRecord)

/-- Store well-formedness: the spec's invariants — rows carry pairwise
distinct surrogate ids, usernames and emails. -/
def WF (s : Store) : Prop :=
  s.Pairwise (fun a b => a.id ≠ b.id ∧ a.username ≠ b.username ∧ a.email ≠ b.email)

/-- The user records among a command's printed output. -/
def printedUsers (out : List Printed) : List User :=
  out.filterMap (fun p =>
    match p with
    | Printed.userRecord u => some u
    | _ => none)

/-- C1: after `initialize`, whatever rows existed before, the store holds
exactly one row and its username, email and password are bob's seed
values. -/
theorem initDb_seeds_exactly_bob (s : Store) :
    (initDb s).1.map (fun u => (u.username, u.email, u.password)) =
      [("bob", "bob@mail.com", "bobpass")] ∧
    (initDb s).1.length = 1 := by
  constructor <;> rfl

/-- C10: the four read-only commands `get_user`, `get_all_users`,
`search_users` and `list_paginated` leave the store's rows unchanged on
every input. -/
theorem readonly_commands_preserve_store
    (s : Store) (username query : String) (limit offset : Nat) :
    (get_user s username).1 = s ∧
    (get_all_users s).1 = s ∧
    (search_users s query).1 = s ∧
    (list_paginated s limit offset).1 = s := by
  refine ⟨?_, ?_, ?_, ?_⟩
  · unfold get_user
    cases s.find? (fun u => u.username == username) <;> rfl
  · unfold get_all_users
    by_cases h : s.isEmpty <;> simp [h]
  · unfold search_users
    by_cases h :
        (s.filter (fun u => strContains u.username query || strContains u.email query)).isEmpty <;>
      simp [h]
  · unfold list_paginated
    by_cases h : ((s.drop offset).take limit).isEmpty <;> simp [h]

/-- Seed row used as the concrete store in witnesses (the user inserted by
`initialize`). -/
def bobRow : User :=
  { id := 1, username := "bob", email := "bob@mail.com", password := "bobpass" }

/-- C2: for any triple whose username and email occur in no existing row,
`create_user` followed by `get_user` on that username prints a record
whose username, email and password are the triple's values. -/
theorem create_user_then_get_user
    (s : Store) (username email password : String)
    (h : ∀ r ∈ s, r.username ≠ username ∧ r.email ≠ email) :
    ∃ u : User,
      (get_user (create_user s username email password).1 username).2 =
        [Printed.userRecord u] ∧
      u.username = username ∧ u.email = email ∧ u.password = password := by
  have hc : insertConflict s username email = false := by
    rw [insertConflict, List.any_eq_false]
    intro r hr
    simp only [Bool.or_eq_true, beq_iff_eq, not_or]
    exact ⟨(h r hr).1, (h r hr).2⟩
  refine ⟨{ id := nextId s, username := username, email := email, password := password },
    ?_, rfl, rfl, rfl⟩
  have hfind : s.find? (fun u => u.username == username) = none := by
    rw [List.find?_eq_none]
    intro x hx
    simp [(h x hx).1]
  simp [create_user, hc, get_user, List.find?_append, hfind, List.find?]

/-- C2 witness: creating alice over the seed store and reading her back. -/
theorem create_user_then_get_user_witness :
    ∃ u : User,
      (get_user (create_user [bobRow] "alice" "alice@mail.com" "alicepass").1 "alice").2 =
        [Printed.userRecord u] ∧
      u.username = "alice" ∧ u.email = "alice@mail.com" ∧ u.password = "alicepass" :=
  create_user_then_get_user [bobRow] "alice" "alice@mail.com" "alicepass" (by decide)

/-- C3: when some existing row already carries the requested username or
email, `create_user` leaves the rows exactly as they were and prints the
taken message; the command returns normally (its result type is total —
the IntegrityError is caught inside, unlike `change_email`). -/
theorem create_user_taken_rolls_back
    (s : Store) (username email password : String)
    (h : ∃ r ∈ s, r.username = username ∨ r.email = email) :
    create_user s username email password = (s, [Printed.usernameOrEmailTaken]) := by
  have hc : insertConflict s username email = true := by
    rw [insertConflict, List.any_eq_true]
    obtain ⟨r, hr, hor⟩ := h
    exact ⟨r, hr, by rcases hor with h1 | h1 <;> simp [h1]⟩
  simp [create_user, hc]

/-- C3 witness: re-creating bob with a fresh email still collides. -/
theorem create_user_taken_rolls_back_witness :
    create_user [bobRow] "bob" "x@x.com" "pw" = ([bobRow], [Printed.usernameOrEmailTaken]) :=
  create_user_taken_rolls_back [bobRow] "bob" "x@x.com" "pw" (by decide)

/-- C6: `change_email` on a username present in no row returns the store
unchanged — every row and the row count identical — and prints the
not-found message. -/
theorem change_email_not_found_no_write
    (s : Store) (username new_email : String)
    (h : ∀ r ∈ s, r.username ≠ username) :
    change_email s username new_email = Except.ok (s, [Printed.notFoundUpdate username]) := by
  have hfind : s.find? (fun u => u.username == username) = none := by
    rw [List.find?_eq_none]
    intro x hx
    simp [h x hx]
  simp [change_email, hfind]

/-- C6 witness: changing the email of an absent user over the seed store. -/
theorem change_email_not_found_no_write_witness :
    change_email [bobRow] "alice" "new@mail.com" =
      Except.ok ([bobRow], [Printed.notFoundUpdate "alice"]) :=
  change_email_not_found_no_write [bobRow] "alice" "new@mail.com" (by decide)

/-- The contains-match holds exactly when the query's characters occur as a
contiguous substring of the haystack's characters. -/
theorem strContains_iff (hay q : String) :
    strContains hay q = true ↔ q.toList <:+: hay.toList :=
  decide_eq_true_iff

/-- From the well-formedness invariant: two distinct rows of the store
differ in id, in username and in email. -/
theorem wf_distinct {s : Store} (hwf : WF s) {a b : User}
    (ha : a ∈ s) (hb : b ∈ s) (hne : a ≠ b) :
    a.id ≠ b.id ∧ a.username ≠ b.username ∧ a.email ≠ b.email := by
  have hsymm : Symmetric fun a b : User =>
      a.id ≠ b.id ∧ a.username ≠ b.username ∧ a.email ≠ b.email := by
    intro x y hxy
    exact ⟨hxy.1.symm, hxy.2.1.symm, hxy.2.2.symm⟩
  exact List.Pairwise.forall hsymm hwf ha hb hne

/-- The exact-match lookup shared by get_user/change_email/delete_user
returns some row when a row with the username exists, and that row is in
the store and carries the username. -/
theorem find?_username_some (s : Store) (username : String)
    (h : ∃ r ∈ s, r.username = username) :
    ∃ r0, s.find? (fun u => u.username == username) = some r0 ∧
      r0 ∈ s ∧ r0.username = username := by
  have hsome : (s.find? (fun u => u.username == username)).isSome := by
    rw [List.find?_isSome]
    obtain ⟨r, hr, he⟩ := h
    exact ⟨r, hr, by simp [he]⟩
  obtain ⟨r0, hr0⟩ := Option.isSome_iff_exists.mp hsome
  refine ⟨r0, hr0, List.mem_of_find?_eq_some hr0, ?_⟩
  have := List.find?_some hr0
  simpa using this

/-- C4: `search_users` prints exactly the rows where the query occurs as a
case-sensitive substring of the username or of the email; in particular
a row matching only after case folding satisfies neither infix condition
and so is not printed. -/
theorem search_users_exactly_substring_matches (s : Store) (query : String) (u : User) :
    Printed.userRecord u ∈ (search_users s query).2 ↔
      u ∈ s ∧ (query.toList <:+: u.username.toList ∨ query.toList <:+: u.email.toList) := by
  have hmem : Printed.userRecord u ∈ (search_users s query).2 ↔
      u ∈ s.filter (fun v => strContains v.username query || strContains v.email query) := by
    unfold search_users
    by_cases h :
        (s.filter (fun v => strContains v.username query || strContains v.email query)).isEmpty
    · rw [List.isEmpty_iff] at h
      simp [h]
    · simp [h]
  rw [hmem, List.mem_filter]
  simp [strContains_iff]

/-- C5: with the store invariants, `delete_user` on a present username
removes exactly the row carrying that username — the rest of the store
is `s.erase r`, one row shorter — and a subsequent `get_user` on that
username prints not-found. -/
theorem delete_user_removes_exactly_that_row
    (s : Store) (username : String) (hwf : WF s)
    (h : ∃ r ∈ s, r.username = username) :
    ∃ r ∈ s, r.username = username ∧
      (delete_user s username).1 = s.erase r ∧
      (delete_user s username).1.length + 1 = s.length ∧
      (get_user (delete_user s username).1 username).2 = [Printed.notFoundGet username] := by
  obtain ⟨r0, hfind, hr0mem, hr0name⟩ := find?_username_some s username h
  have hdel : (delete_user s username).1 = s.eraseP (fun x => x.id == r0.id) := by
    simp [delete_user, hfind]
  obtain ⟨as, bs, hsplit⟩ := List.append_of_mem hr0mem
  have hpair := hwf
  rw [WF, hsplit, List.pairwise_append] at hpair
  have hasR : ∀ a ∈ as, a.id ≠ r0.id ∧ a.username ≠ r0.username ∧ a.email ≠ r0.email :=
    fun a ha => hpair.2.2 a ha r0 (List.mem_cons_self r0 bs)
  have hbsR : ∀ b ∈ bs, r0.id ≠ b.id ∧ r0.username ≠ b.username ∧ r0.email ≠ b.email :=
    (List.pairwise_cons.mp hpair.2.1).1
  have herase : s.eraseP (fun x => x.id == r0.id) = as ++ bs := by
    rw [hsplit, List.eraseP_append_right _ (fun b hb => by simp [(hasR b hb).1]),
      List.eraseP_cons_of_pos (by simp)]
  have herase' : s.erase r0 = as ++ bs := by
    rw [hsplit, List.erase_append_right _ (fun hmem => (hasR r0 hmem).1 rfl),
      List.erase_cons_head]
  refine ⟨r0, hr0mem, hr0name, ?_, ?_, ?_⟩
  · rw [hdel, herase, herase']
  · rw [hdel, herase, hsplit]
    simp [List.length_append]
    omega
  · rw [hdel, herase]
    have hnone : (as ++ bs).find? (fun u => u.username == username) = none := by
      rw [List.find?_eq_none]
      intro x hx
      rcases List.mem_append.mp hx with hx | hx
      · have hne := (hasR x hx).2.1
        rw [hr0name] at hne
        simp [hne]
      · have hne := (hbsR x hx).2.1
        rw [hr0name] at hne
        simp [Ne.symm hne]
    simp [get_user, hnone]

/-- Second row used in witnesses alongside `bobRow`. -/
def aliceRow : User :=
  { id := 2, username := "alice", email := "alice@mail.com", password := "alicepass" }

/-- C5 witness: deleting alice from a two-row store. -/
theorem delete_user_removes_exactly_that_row_witness :
    ∃ r ∈ ([bobRow, aliceRow] : Store), r.username = "alice" ∧
      (delete_user [bobRow, aliceRow] "alice").1 = ([bobRow, aliceRow] : Store).erase r ∧
      (delete_user [bobRow, aliceRow] "alice").1.length + 1 =
        ([bobRow, aliceRow] : Store).length ∧
      (get_user (delete_user [bobRow, aliceRow] "alice").1 "alice").2 =
        [Printed.notFoundGet "alice"] :=
  delete_user_removes_exactly_that_row [bobRow, aliceRow] "alice"
    (by unfold WF; decide) (by decide)

/-- C7: with the store invariants and the new email not held by any other
row, `change_email` on a present username succeeds and the resulting
store maps every row to itself except the row with that username, whose
email alone becomes the new value — id, username and password of that
row, and every other row, are untouched, and the row count is preserved
by the map. -/
theorem change_email_updates_only_target
    (s : Store) (username new_email : String) (hwf : WF s)
    (h : ∃ r ∈ s, r.username = username)
    (hfree : ∀ r ∈ s, r.username ≠ username → r.email ≠ new_email) :
    change_email s username new_email =
      Except.ok
        (s.map (fun r => if r.username = username then { r with email := new_email } else r),
         [Printed.updatedEmail username new_email]) := by
  obtain ⟨r0, hfind, hr0mem, hr0name⟩ := find?_username_some s username h
  have hconf : s.any (fun r => r.id != r0.id && r.email == new_email) = false := by
    rw [List.any_eq_false]
    intro r hr
    by_cases hre : r = r0
    · subst hre
      simp
    · have hd := wf_distinct hwf hr hr0mem hre
      have hu : r.username ≠ username := by
        rw [← hr0name]
        exact hd.2.1
      simp [hfree r hr hu]
  have hmap : s.map (fun r => if r.id = r0.id then { r with email := new_email } else r) =
      s.map (fun r => if r.username = username then { r with email := new_email } else r) := by
    apply List.map_congr_left
    intro r hr
    by_cases hre : r = r0
    · subst hre
      simp [hr0name]
    · have hd := wf_distinct hwf hr hr0mem hre
      have hu : r.username ≠ username := by
        rw [← hr0name]
        exact hd.2.1
      rw [if_neg hd.1, if_neg hu]
  simp [change_email, hfind, hconf, hmap, hr0name]

/-- C7 witness: changing bob's email in a two-row store rewrites only
bob's email field. -/
theorem change_email_updates_only_target_witness :
    change_email [bobRow, aliceRow] "bob" "bob2@mail.com" =
      Except.ok
        (([bobRow, aliceRow] : Store).map
          (fun r => if r.username = "bob" then { r with email := "bob2@mail.com" } else r),
         [Printed.updatedEmail "bob" "bob2@mail.com"]) :=
  change_email_updates_only_target [bobRow, aliceRow] "bob" "bob2@mail.com"
    (by unfold WF; decide) (by decide) (by decide)

/-- C9: when the target username exists and a different row already holds
the new email, the store-level uniqueness violation is not caught by
`change_email` (whose body, unlike `create_user`'s, has no
IntegrityError handler): the command's result is the propagated error,
not a printed taken-field message. -/
theorem change_email_conflict_propagates
    (s : Store) (username new_email : String) (hwf : WF s)
    (h : ∃ r ∈ s, r.username = username)
    (hconf : ∃ x ∈ s, x.username ≠ username ∧ x.email = new_email) :
    change_email s username new_email = Except.error DBError.integrityError := by
  obtain ⟨r0, hfind, hr0mem, hr0name⟩ := find?_username_some s username h
  have hany : s.any (fun r => r.id != r0.id && r.email == new_email) = true := by
    rw [List.any_eq_true]
    obtain ⟨x, hx, hxu, hxe⟩ := hconf
    have hxne : x ≠ r0 := fun he => hxu (he ▸ hr0name)
    have hd := wf_distinct hwf hx hr0mem hxne
    exact ⟨x, hx, by simp [hd.1, hxe]⟩
  simp [change_email, hfind, hany]

/-- C9 witness: pointing bob's email at alice's existing email makes the
command fail with the propagated IntegrityError. -/
theorem change_email_conflict_propagates_witness :
    change_email [bobRow, aliceRow] "bob" "alice@mail.com" =
      Except.error DBError.integrityError :=
  change_email_conflict_propagates [bobRow, aliceRow] "bob" "alice@mail.com"
    (by unfold WF; decide) (by decide) (by decide)

/-- The user records printed by a pagination page are exactly the
take-after-drop window of the store. -/
theorem printedUsers_userRecords (l : List User) :
    printedUsers (l.map Printed.userRecord) = l := by
  induction l with
  | nil => rfl
  | cons a l ih =>
      simp only [List.map_cons, printedUsers, List.filterMap_cons] at ih ⊢
      rw [ih]

theorem printedUsers_header_cons (lim off : Nat) (out : List Printed) :
    printedUsers (Printed.paginationHeader lim off :: out) = printedUsers out := by
  simp [printedUsers, List.filterMap_cons]

theorem printedUsers_list_paginated (s : Store) (limit offset : Nat) :
    printedUsers (list_paginated s limit offset).2 = (s.drop offset).take limit := by
  simp only [list_paginated]
  by_cases h : ((s.drop offset).take limit).isEmpty
  · rw [List.isEmpty_iff] at h
    simp [h, printedUsers]
  · rw [if_neg h]
    rw [printedUsers_header_cons, printedUsers_userRecords]

/-- C8: a pagination page holds at most `limit` records and its i-th
record is the store's (offset+i)-th row, so `offset` rows are skipped;
over a 4-row store the (limit 2, offset 0) and (limit 2, offset 2) pages
are two 2-row blocks whose concatenation is exactly the whole store
(disjoint positions, union all four rows, in storage order). -/
theorem list_paginated_pages (s : Store) (limit offset : Nat) :
    (printedUsers (list_paginated s limit offset).2).length ≤ limit ∧
    (∀ i : Nat, ∀ hi : i < (printedUsers (list_paginated s limit offset).2).length,
      ∃ hj : offset + i < s.length,
        (printedUsers (list_paginated s limit offset).2).get ⟨i, hi⟩ =
          s.get ⟨offset + i, hj⟩) ∧
    (s.length = 4 →
      (printedUsers (list_paginated s 2 0).2).length = 2 ∧
      (printedUsers (list_paginated s 2 2).2).length = 2 ∧
      printedUsers (list_paginated s 2 0).2 ++ printedUsers (list_paginated s 2 2).2 = s) := by
  simp only [printedUsers_list_paginated]
  refine ⟨?_, ?_, ?_⟩
  · simp [List.length_take]
  · intro i hi
    have hb : offset + i < s.length := by
      have hi' := hi
      simp [List.length_take, List.length_drop] at hi'
      omega
    refine ⟨hb, ?_⟩
    simp [List.get_eq_getElem, printedUsers_list_paginated]
  · intro h4
    have h1 : (s.drop 2).take 2 = s.drop 2 :=
      List.take_of_length_le (by simp [List.length_drop, h4])
    refine ⟨?_, ?_, ?_⟩
    · simp [List.length_take, h4]
    · simp [List.length_take, List.length_drop, h4]
    · rw [List.drop_zero, h1, List.take_append_drop]

/-- Four-row store used in the pagination witness. -/
def fourRows : Store :=
  [bobRow, aliceRow,
   { id := 3, username := "carol", email := "carol@mail.com", password := "carolpass" },
   { id := 4, username := "dana", email := "dana@mail.com", password := "danapass" }]

/-- C8 witness: over the concrete four-row store, the two pages are 2 and
2 rows whose concatenation is the whole store. -/
theorem list_paginated_pages_witness :
    (printedUsers (list_paginated fourRows 2 0).2).length = 2 ∧
    (printedUsers (list_paginated fourRows 2 2).2).length = 2 ∧
    printedUsers (list_paginated fourRows 2 0).2 ++
      printedUsers (list_paginated fourRows 2 2).2 = fourRows :=
  (list_paginated_pages fourRows 2 0).2.2 (by rfl)
